import Mathlib

/-!
Verification of the fontbro variable-font instancing core.

A shallow embedding of the variable-font axis instancing and
coordinate-resolution engine of `fontbro` (src/fontbro/font.py), together
with theorems settling the frozen claims about it.

Modelling conventions:

* Python `dict`s are insertion-ordered association lists with unique keys;
  lookup takes the first match (`dictGet`), update replaces an existing
  entry in place or appends a fresh one (`dictSet`), mirroring CPython
  dict semantics.
* Python numbers (`int`/`float`) are rationals (`ℚ`).  The dynamic values
  a caller can place in a coordinates dict are the inductive `AxisValue`:
  `vnone` is Python `None`, `num` an `int`/`float`, `listV`/`tupleV` a
  list/tuple of numbers, `dictV` a dict with optional `min`/`default`/`max`
  numeric entries (a key that is present holds a number; this is the shape
  the code documents and handles).
* The external font-table codec (fontTools) and name-table records are at
  the boundary described in the spec: name records are one string per
  name ID, style flags a record of booleans, and
  `instancer.instantiateVariableFont` on a fully pinned coordinate set
  collapses the font to a static one.
* Python methods that mutate the font and may raise are embedded as pure
  functions returning the raised error (if any) together with the font
  state as it stands when the method returns or raises, so that
  "mutation before raise" is observable.
-/

namespace Fontbro

/-- First-match lookup in an association list, i.e. Python `dict.get`
(the dict model: insertion-ordered entries, the keys are `String` axis
tags or `Nat` name IDs). -/
def dictGet {κ α : Type} [BEq κ] (d : List (κ × α)) (k : κ) : Option α :=
  (d.find? (fun p => p.1 == k)).map (fun p => p.2)

/-- Python `dict` item assignment: replace the entry in place when the key is
present, append a new entry otherwise. -/
def dictSet {κ α : Type} [BEq κ] (d : List (κ × α)) (k : κ) (v : α) :
    List (κ × α) :=
  if (d.find? (fun p => p.1 == k)).isSome then
    d.map (fun p => if p.1 == k then (k, v) else p)
  else
    d ++ [(k, v)]

/-- A dynamic Python value usable as an axis coordinate. -/
inductive AxisValue : Type where
  | vnone : AxisValue
  | num (q : ℚ) : AxisValue
  | listV (xs : List (Option ℚ)) : AxisValue
  | tupleV (xs : List (Option ℚ)) : AxisValue
  | dictV (mn df mx : Option ℚ) : AxisValue
  deriving DecidableEq, Repr

/-- Coordinates dict: axis tag to dynamic value. -/
abbrev Coords := List (String × AxisValue)

/-- A variable axis as read from the `fvar` table
(`Font.get_variable_axes`; the display name is irrelevant here). -/
structure Axis : Type where
  tag : String
  minValue : ℚ
  defaultValue : ℚ
  maxValue : ℚ
  deriving DecidableEq, Repr

/-- A named instance as read from the `fvar` table
(`Font.get_variable_instances`): coordinates plus the debug style name,
which can be absent. -/
structure VarInstance : Type where
  coordinates : List (String × ℚ)
  styleName : Option String
  deriving DecidableEq, Repr

/-- The `regular` / `bold` / `italic` style-flag bits
(`OS/2.fsSelection` / `head.macStyle`), modelled at the collaborator
boundary of the spec as plain booleans; the remaining flags are never
touched on the embedded paths. -/
structure StyleFlags : Type where
  regular : Bool
  bold : Bool
  italic : Bool
  deriving DecidableEq, Repr

/-- The slice of font state the instancing core reads and writes:
whether an `fvar` table is present, its axes and named instances, the
name-table records (one string per name ID, the codec boundary of the
spec), and the style flags. -/
structure FontState : Type where
  hasFvar : Bool
  axes : List Axis
  instances : List VarInstance
  names : List (Nat × String)
  flags : StyleFlags
  deriving DecidableEq, Repr

/-- `Font.is_variable`: `"fvar" in font`. -/
def is_variable (f : FontState) : Bool :=
  f.hasFvar

/-- `Font.is_static`: `not self.is_variable()`. -/
def is_static (f : FontState) : Bool :=
  !(is_variable f)

/-- `Font.get_variable_axes`: the axis list when variable, `None` otherwise. -/
def get_variable_axes (f : FontState) : Option (List Axis) :=
  if is_variable f then some f.axes else none

/-- `Font.get_variable_axes_tags`: the axis tags when variable. -/
def get_variable_axes_tags (f : FontState) : Option (List String) :=
  if is_variable f then some (f.axes.map Axis.tag) else none

/-- `Font.get_variable_axis_by_tag`: first declared axis with the tag. -/
def get_variable_axis_by_tag (f : FontState) (tag : String) : Option Axis :=
  ((get_variable_axes f).getD []).find? (fun a => a.tag == tag)

/-- `Font.get_variable_instances`: the named instances when variable. -/
def get_variable_instances (f : FontState) : Option (List VarInstance) :=
  if is_variable f then some f.instances else none

/-- The error taxonomy of `fontbro/exceptions.py` relevant to the core
(spec §7). -/
inductive FontbroError : Type where
  | argumentError (msg : String) : FontbroError
  | operationError (msg : String) : FontbroError
  deriving DecidableEq, Repr

/-- The resolver's initial best distance is `float(sys.maxsize)`, and
`sys.maxsize = 2 ^ 63 - 1` rounds to `2 ^ 63` as a double.  Distances are
represented squared (see `sq_euclidean_distance`), so the threshold is
squared as well. -/
def MAXSIZE_SQ : ℚ := ((2 : ℚ) ^ 63) ^ 2

/-- Modelled from the spec: `get_euclidean_distance` lives in
`fontbro/math.py`, which is not under src/.  Per spec §4.3 it is the
Euclidean distance between a named instance's coordinate vector and the
lookup point over the axis tags present in the instance (the lookup point
has already been filled with axis defaults by the caller).  Distances are
represented by their squares, a rational; this preserves every strict
comparison the resolver makes, because squaring is strictly monotone on
nonnegative reals. -/
def sq_euclidean_distance (instanceValues : List (String × ℚ))
    (lookupValues : Coords) : ℚ :=
  (instanceValues.map (fun p =>
    (p.2 - (match dictGet lookupValues p.1 with
            | some (AxisValue.num q) => q
            | _ => 0)) ^ 2)).sum

/-- The defaulting loop of
`Font.get_variable_instance_closest_to_coordinates`: every declared axis
whose lookup value is absent or `None` is set to the axis default (the
source deliberately avoids `setdefault` so that `None` values are also
overridden). -/
def fill_lookup_step (lv : Coords) (axis : Axis) : Coords :=
  match dictGet lv axis.tag with
  | none => dictSet lv axis.tag (AxisValue.num axis.defaultValue)
  | some AxisValue.vnone => dictSet lv axis.tag (AxisValue.num axis.defaultValue)
  | some _ => lv

/-- The whole defaulting loop over the declared axes. -/
def fill_lookup_defaults (axes : List Axis) (coordinates : Coords) : Coords :=
  axes.foldl fill_lookup_step coordinates

/-- The selection loop of
`Font.get_variable_instance_closest_to_coordinates`: keep the first
instance strictly closer than the best so far. -/
def closest_loop (lookupValues : Coords) :
    List VarInstance → ℚ → Option VarInstance → Option VarInstance
  | [], _, best => best
  | inst :: rest, bestDist, best =>
    let d := sq_euclidean_distance inst.coordinates lookupValues
    if d < bestDist then closest_loop lookupValues rest d (some inst)
    else closest_loop lookupValues rest bestDist best

/-- `Font.get_variable_instance_closest_to_coordinates`. -/
def get_variable_instance_closest_to_coordinates (f : FontState)
    (coordinates : Coords) : Option VarInstance :=
  if !(is_variable f) then none
  else
    let lookupValues :=
      fill_lookup_defaults ((get_variable_axes f).getD []) coordinates
    closest_loop lookupValues ((get_variable_instances f).getD [])
      MAXSIZE_SQ none

/-- ASCII lowercase mapping (the name strings in scope are ASCII). -/
def charLower (c : Char) : Char :=
  if 65 ≤ c.toNat ∧ c.toNat ≤ 90 then Char.ofNat (c.toNat + 32) else c

/-- ASCII uppercase mapping. -/
def charUpper (c : Char) : Char :=
  if 97 ≤ c.toNat ∧ c.toNat ≤ 122 then Char.ofNat (c.toNat - 32) else c

/-- ASCII letter test. -/
def isAsciiAlpha (c : Char) : Bool :=
  decide ((65 ≤ c.toNat ∧ c.toNat ≤ 90) ∨ (97 ≤ c.toNat ∧ c.toNat ≤ 122))

/-- ASCII letter-or-digit test. -/
def isAsciiAlnum (c : Char) : Bool :=
  isAsciiAlpha c || c.isDigit

/-- Collapse runs of dashes to a single dash; the boolean says whether the
previous character was a dash. -/
def collapse_dashes : Bool → List Char → List Char
  | _, [] => []
  | prevDash, c :: rest =>
    if c = '-' then
      if prevDash then collapse_dashes true rest
      else '-' :: collapse_dashes true rest
    else c :: collapse_dashes false rest

/-- Strip a given character from both ends of a character list. -/
def strip_char (c : Char) (l : List Char) : List Char :=
  ((l.dropWhile (fun x => x = c)).reverse.dropWhile (fun x => x = c)).reverse

/-- Modelled from the spec: `slugify` lives in `fontbro/utils.py`, which is
not under src/.  Per spec §4.4 the style-name match is "exact
case/whitespace-insensitive"; on ASCII input the `python-slugify` package
lowercases, turns every run of non-alphanumeric characters into a single
dash and strips dashes at the ends. -/
def slugify (s : String) : String :=
  String.mk (strip_char '-' (collapse_dashes false
    (s.toList.map (fun c => if isAsciiAlnum c then charLower c else '-'))))

/-- `Font.get_variable_instance_by_style_name`: first instance whose
slugified style name matches. -/
def get_variable_instance_by_style_name (f : FontState)
    (style_name : String) : Option VarInstance :=
  ((get_variable_instances f).getD []).find?
    (fun inst => slugify (inst.styleName.getD "") == slugify style_name)

/-- `Font._all_axes_pinned`: every value is `None`, an `int` or a `float`. -/
def all_axes_pinned (axes : Coords) : Bool :=
  axes.all (fun p =>
    match p.2 with
    | AxisValue.vnone => true
    | AxisValue.num _ => true
    | _ => false)

/-- The coordinate-friendliness rewrite of `Font.to_sliced_variable`: a
list value becomes a tuple, a dict value becomes a `(min, default, max)`
tuple whose missing keys fall back to the axis's own bounds (`None` when
the tag is not a declared axis, since `get_variable_axis_by_tag` then
yields `{}`); other values pass through. -/
def slice_convert_value (f : FontState) (axisTag : String) (v : AxisValue) :
    AxisValue :=
  match v with
  | AxisValue.listV xs => AxisValue.tupleV xs
  | AxisValue.dictV mn df mx =>
    let axis := get_variable_axis_by_tag f axisTag
    AxisValue.tupleV
      [(match mn with
        | some q => some q
        | none => axis.map Axis.minValue),
       (match df with
        | some q => some q
        | none => axis.map Axis.defaultValue),
       (match mx with
        | some q => some q
        | none => axis.map Axis.maxValue)]
  | v => v

/-- The in-place rewrite loop of `Font.to_sliced_variable` over the
caller's coordinates dict (keys unchanged, each value converted). -/
def slice_convert_coordinates (f : FontState) (coordinates : Coords) :
    Coords :=
  coordinates.map (fun p => (p.1, slice_convert_value f p.1 p.2))

/-- Python `set(a) == set(b)` on tag lists. -/
def tag_set_eq (a b : List String) : Bool :=
  a.all (fun t => b.contains t) && b.all (fun t => a.contains t)

/-- Modelled from the spec: `instancer.instantiateVariableFont`
(fontTools) is an external codec.  For a slice, spec §4.4: the variation
space is restricted per axis — an axis pinned within the call is removed,
a range axis keeps the narrowed bounds, untouched axes are left exactly as
declared; the font stays variable while axes remain. -/
def instantiate_slice (f : FontState) (coordinates : Coords) : FontState :=
  let newAxes := f.axes.filterMap (fun axis =>
    match dictGet coordinates axis.tag with
    | none => some axis
    | some (AxisValue.num _) => none
    | some AxisValue.vnone => none
    | some (AxisValue.tupleV [some mn, some df, some mx]) =>
      some { axis with minValue := mn, defaultValue := df, maxValue := mx }
    | some (AxisValue.tupleV [some mn, some mx]) =>
      if mn = mx then none
      else some { axis with minValue := mn, maxValue := mx }
    | some _ => some axis)
  { f with hasFvar := !newAxes.isEmpty, axes := newAxes }

/-- Modelled from the spec: `instancer.instantiateVariableFont`
(fontTools) is an external codec.  For a pin, spec §4.4: the codec
"collapses all variation data to the single point, producing a
non-variable font"; name records are untouched because `to_static` passes
`updateFontNames=False`. -/
def instantiate_pin (f : FontState) : FontState :=
  { f with hasFvar := false, axes := [], instances := [] }

/-- `Font.to_sliced_variable`, embedded as a pure function returning the
raised error (if any), the font state when the call returns or raises, and
the caller's coordinates dict as it stands at that moment (the rewrite
loop mutates it in place before the validation checks). -/
def to_sliced_variable (f : FontState) (coordinates : Coords) :
    Except FontbroError Unit × FontState × Coords :=
  if !(is_variable f) then
    (Except.error
      (FontbroError.operationError "Only a variable font can be sliced."),
     f, coordinates)
  else
    let coords := slice_convert_coordinates f coordinates
    if coords.length = 0 then
      (Except.error
        (FontbroError.argumentError "Invalid coordinates: axes not defined."),
       f, coords)
    else if tag_set_eq (coords.map Prod.fst)
        ((get_variable_axes_tags f).getD []) && all_axes_pinned coords then
      (Except.error (FontbroError.argumentError
        "Invalid coordinates: all axes are pinned (use to_static method)."),
       f, coords)
    else
      (Except.ok (), instantiate_slice f coords, coords)

/-- The defaulting step of `Font.to_static`: extend the coordinates dict
with a `None` placeholder for every declared axis tag not already present
(`coordinates.update(default_coordinates)` appends the new keys in axis
order). -/
def static_fill_defaults (f : FontState) (coordinates : Coords) : Coords :=
  ((get_variable_axes_tags f).getD []).foldl
    (fun c tag =>
      if (dictGet c tag).isSome then c else c ++ [(tag, AxisValue.vnone)])
    coordinates

/-- The validation and coordinate-resolution phase of `Font.to_static`:
the variability guard, the mutually-exclusive `style_name` path, the
defaulting of unspecified axes, and the all-axes-pinned check, yielding
the final coordinates dict handed to the codec. -/
def to_static_resolve (f : FontState) (coordinates : Option Coords)
    (style_name : Option String) : Except FontbroError Coords :=
  if !(is_variable f) then
    Except.error
      (FontbroError.operationError "Only a variable font can be made static.")
  else
    let viaStyle : Except FontbroError Coords :=
      if (style_name.getD "") ≠ "" then
        if (coordinates.getD []) ≠ [] then
          Except.error (FontbroError.argumentError
            "Invalid arguments: 'coordinates' and 'style_name' are mutually exclusive.")
        else
          match get_variable_instance_by_style_name f (style_name.getD "") with
          | none =>
            Except.error (FontbroError.argumentError
              ("Invalid style name: instance with style name '" ++
                style_name.getD "" ++ "' not found."))
          | some inst =>
            Except.ok (inst.coordinates.map
              (fun p => (p.1, AxisValue.num p.2)))
      else Except.ok (coordinates.getD [])
    match viaStyle with
    | Except.error e => Except.error e
    | Except.ok coords0 =>
      let coords := static_fill_defaults f coords0
      if !(all_axes_pinned coords) then
        Except.error (FontbroError.argumentError
          "Invalid coordinates: all axes must be pinned.")
      else Except.ok coords

/-- The value `Font.to_static` reads back from the final coordinates dict
for the style-flag override: `(coordinates.get(tag, 0) or 0)` — `0` when
the tag is absent or holds `None`, the number itself otherwise (`q or 0`
is numerically the identity). -/
def instancer_coord_value (coordinates : Coords) (tag : String) : ℚ :=
  match dictGet coordinates tag with
  | some (AxisValue.num q) => q
  | _ => 0

/-! Name-table IDs (`Font._NAMES`). -/

def NAME_FAMILY_NAME : Nat := 1

def NAME_SUBFAMILY_NAME : Nat := 2

def NAME_UNIQUE_IDENTIFIER : Nat := 3

def NAME_FULL_NAME : Nat := 4

def NAME_POSTSCRIPT_NAME : Nat := 6

def NAME_TYPOGRAPHIC_FAMILY_NAME : Nat := 16

def NAME_TYPOGRAPHIC_SUBFAMILY_NAME : Nat := 17

def NAME_WWS_FAMILY_NAME : Nat := 21

def NAME_WWS_SUBFAMILY_NAME : Nat := 22

/-- `Font.get_name`: the record for a name ID (the mac-then-win platform
preference of the source is modelled as a single record per ID at the
name-table collaborator boundary of spec §6). -/
def get_name (f : FontState) (nameId : Nat) : Option String :=
  dictGet f.names nameId

/-- Python `x or y` where `x` is an optional string: `None` and `""` are
falsy. -/
def pyOrStr (a : Option String) (b : String) : String :=
  match a with
  | some s => if s = "" then b else s
  | none => b

/-- `Font.get_family_name`: name records with priority order (16, 21, 1). -/
def get_family_name (f : FontState) : String :=
  pyOrStr (get_name f NAME_TYPOGRAPHIC_FAMILY_NAME)
    (pyOrStr (get_name f NAME_WWS_FAMILY_NAME)
      (pyOrStr (get_name f NAME_FAMILY_NAME) ""))

/-- `Font.get_style_name`: name records with priority order (17, 22, 2). -/
def get_style_name (f : FontState) : String :=
  pyOrStr (get_name f NAME_TYPOGRAPHIC_SUBFAMILY_NAME)
    (pyOrStr (get_name f NAME_WWS_SUBFAMILY_NAME)
      (pyOrStr (get_name f NAME_SUBFAMILY_NAME) ""))

/-- `Font.set_name`: store the record (both platform copies are modelled
as the single record per ID). -/
def set_name (f : FontState) (nameId : Nat) (value : String) : FontState :=
  { f with names := dictSet f.names nameId value }

/-- `Font.set_names`: set each record in iteration order. -/
def set_names (f : FontState) (names : List (Nat × String)) : FontState :=
  names.foldl (fun g p => set_name g p.1 p.2) f

/-- `Font.set_style_flags`: keys set to `None` are ignored (only the
`regular` / `bold` / `italic` bits are ever set on the embedded paths). -/
def set_style_flags (f : FontState)
    (regular bold italic : Option Bool) : FontState :=
  let fl := f.flags
  let fl := match regular with
    | some b => { fl with regular := b }
    | none => fl
  let fl := match bold with
    | some b => { fl with bold := b }
    | none => fl
  let fl := match italic with
    | some b => { fl with italic := b }
    | none => fl
  { f with flags := fl }

/-- Python `str.lower` on ASCII input. -/
def pyLower (s : String) : String :=
  String.mk (s.toList.map charLower)

/-- Python `str.strip` on ASCII input. -/
def pyStrip (s : String) : String :=
  String.mk
    (((s.toList.dropWhile Char.isWhitespace).reverse.dropWhile
      Char.isWhitespace).reverse)

/-- Python `str.title` on ASCII input: a letter is uppercased after a
non-letter and lowercased after a letter. -/
def title_aux : Bool → List Char → List Char
  | _, [] => []
  | prevAlpha, c :: rest =>
    (if isAsciiAlpha c then
      (if prevAlpha then charLower c else charUpper c)
     else c) :: title_aux (isAsciiAlpha c) rest

/-- Python `str.title` on ASCII input. -/
def pyTitle (s : String) : String :=
  String.mk (title_aux false s.toList)

/-- Whether the first list is a prefix of the second. -/
def list_starts_with : List Char → List Char → Bool
  | [], _ => true
  | _ :: _, [] => false
  | p :: ps, c :: cs => p == c && list_starts_with ps cs

/-- Python `sub in s` (substring containment). -/
def list_contains_sub (pat : List Char) : List Char → Bool
  | [] => list_starts_with pat []
  | c :: rest => list_starts_with pat (c :: rest) || list_contains_sub pat rest

/-- `re.sub(r"\ italic$", "", s, flags=re.IGNORECASE)`: drop a trailing
`" italic"` (case-insensitive). -/
def strip_trailing_italic (s : String) : String :=
  if list_starts_with (" italic".toList.reverse)
      ((s.toList.map charLower).reverse) then
    String.mk (s.toList.take (s.toList.length - 7))
  else s

/-- `Font.set_style_flags_by_subfamily_name`: match the lowercased
subfamily record against the four standard styles. -/
def set_style_flags_by_subfamily_name (f : FontState) : FontState :=
  let subfamilyName := pyLower ((get_name f NAME_SUBFAMILY_NAME).getD "")
  if subfamilyName = "regular" then
    set_style_flags f (some true) (some false) (some false)
  else if subfamilyName = "bold" then
    set_style_flags f (some false) (some true) (some false)
  else if subfamilyName = "italic" then
    set_style_flags f (some false) (some false) (some true)
  else if subfamilyName = "bold italic" then
    set_style_flags f (some false) (some true) (some true)
  else f

/-- Python `str.replace` helper: leftmost non-overlapping replacement of a
nonempty pattern; the fuel is the input length, which each step decreases. -/
def replace_aux (old new : List Char) : Nat → List Char → List Char
  | _, [] => []
  | 0, l => l
  | fuel + 1, c :: rest =>
    if list_starts_with old (c :: rest) then
      new ++ replace_aux old new fuel ((c :: rest).drop old.length)
    else c :: replace_aux old new fuel rest

/-- Python `s.replace(old, new)`, including the empty-pattern behaviour
(`"ab".replace("", "x") == "xaxbx"`). -/
def pyReplace (s old new : String) : String :=
  if old.toList.isEmpty then
    String.mk (new.toList ++ s.toList.flatMap (fun c => c :: new.toList))
  else
    String.mk (replace_aux old.toList new.toList s.toList.length s.toList)

/-- Modelled from the spec: `concat_names` lives in `fontbro/utils.py`,
which is not under src/.  Per the spec §8 examples it joins the nonempty
name parts with the separator (`"My Font"` + `"Bold Italic"` →
`"My Font Bold Italic"`; the source's default separator is a space, and
`get_filename` passes `"-"` explicitly). -/
def concat_names (a b sep : String) : String :=
  if a = "" then b else if b = "" then a else a ++ sep ++ b

/-- Modelled from the spec: `remove_spaces` lives in `fontbro/utils.py`,
which is not under src/.  Per the spec §8 examples it removes the space
characters (`"My Font"` → `"MyFont"`). -/
def remove_spaces (s : String) : String :=
  String.mk (s.toList.filter (fun c => !(c == ' ')))

/-- Code points of the punctuation the PostScript-name regex of
`Font.rename` allows: `! " # $ & ' * + , - . : ; = ? @ \ ^ _ ` | ~`. -/
def ps_allowed_codes : List Nat :=
  [33, 34, 35, 36, 38, 39, 42, 43, 44, 45, 46, 58, 59, 61, 63, 64, 92, 94,
   95, 96, 124, 126]

/-- Whether a character survives the PostScript-name regex of
`Font.rename` (`[^0-9A-Za-z\!\"...\~]` is replaced by `-`). -/
def ps_allowed_char (c : Char) : Bool :=
  isAsciiAlnum c || ps_allowed_codes.contains c.toNat

/-- The PostScript-name cleanup of `Font.rename`: map each disallowed
character to `-`, collapse dash runs, strip dashes at the ends. -/
def ps_sanitize (s : String) : String :=
  String.mk (strip_char '-' (collapse_dashes false
    (s.toList.map (fun c => if ps_allowed_char c then c else '-'))))

/-- The name records `Font.rename` computes before writing anything. -/
structure RenameNames : Type where
  family : String
  subfamily : String
  unique : String
  full : String
  postscript : String
  typoFamily : String
  typoSubfamily : String
  wwsFamily : String
  wwsSubfamily : String
  deriving DecidableEq, Repr

/-- The pure computation phase of `Font.rename`: auto-detection of blank
arguments, legacy family/subfamily fixing, full name, PostScript name
derivation and unique-identifier rewrite — everything up to (and
independent of) the length check and the writes. -/
def rename_compute (f : FontState) (family_name0 style_name0 : Option String) :
    RenameNames :=
  let family_name :=
    let s := pyStrip (family_name0.getD "")
    if s = "" then get_family_name f else s
  let style_name :=
    let s := pyStrip (style_name0.getD "")
    if s = "" then get_style_name f else s
  let typographic_family_name := family_name
  let typographic_subfamily_name := style_name
  let wws_family_name := family_name
  let wws_subfamily_name := style_name
  let subfamily_names : List String := ["regular", "italic", "bold", "bold italic"]
  let subfamily_name := pyLower style_name
  let pair :=
    if !(subfamily_names.contains subfamily_name) then
      let family_name_suffix := strip_trailing_italic style_name
      let family_name1 :=
        if family_name_suffix ≠ "" then
          typographic_family_name ++ " " ++ family_name_suffix
        else family_name
      let idx : Nat :=
        if list_contains_sub "italic".toList subfamily_name.toList then 1 else 0
      (family_name1, subfamily_names.getD idx "")
    else (family_name, subfamily_name)
  let full_name :=
    concat_names typographic_family_name typographic_subfamily_name " "
  let postscript_name :=
    ps_sanitize (concat_names (remove_spaces typographic_family_name)
      (remove_spaces typographic_subfamily_name) " ")
  let postscript_name_old := (get_name f NAME_POSTSCRIPT_NAME).getD ""
  let unique_identifier :=
    pyReplace ((get_name f NAME_UNIQUE_IDENTIFIER).getD "")
      postscript_name_old postscript_name
  { family := pair.1
    subfamily := pyTitle pair.2
    unique := unique_identifier
    full := full_name
    postscript := postscript_name
    typoFamily := typographic_family_name
    typoSubfamily := typographic_subfamily_name
    wwsFamily := wws_family_name
    wwsSubfamily := wws_subfamily_name }

/-- The error message of `Font.rename`'s length check. -/
def rename_error_msg (n : Nat) : String :=
  "Computed PostScript name exceeded 63 characters max-length (" ++
    toString n ++ " characters)."

/-- `Font.rename`, embedded as a pure function returning the raised error
(if any) and the font state when the call returns or raises: the length
check precedes every write, and on success all records are written through
one `set_names` call, followed by the optional style-flag update. -/
def rename (f : FontState) (family_name style_name : Option String)
    (update_style_flags : Bool) : Except FontbroError Unit × FontState :=
  let n := rename_compute f family_name style_name
  if n.postscript.length > 63 then
    (Except.error
      (FontbroError.argumentError (rename_error_msg n.postscript.length)), f)
  else
    let f1 := set_names f
      [(NAME_FAMILY_NAME, n.family),
       (NAME_SUBFAMILY_NAME, n.subfamily),
       (NAME_UNIQUE_IDENTIFIER, n.unique),
       (NAME_FULL_NAME, n.full),
       (NAME_POSTSCRIPT_NAME, n.postscript),
       (NAME_TYPOGRAPHIC_FAMILY_NAME, n.typoFamily),
       (NAME_TYPOGRAPHIC_SUBFAMILY_NAME, n.typoSubfamily),
       (NAME_WWS_FAMILY_NAME, n.wwsFamily),
       (NAME_WWS_SUBFAMILY_NAME, n.wwsSubfamily)]
    let f2 := if update_style_flags then set_style_flags_by_subfamily_name f1
      else f1
    (Except.ok (), f2)

/-- `Font.to_static`, embedded as a pure function returning the raised
error (if any) and the font state when the call returns or raises:
resolution and validation, closest-instance lookup on the final
coordinates, the codec pin, the optional rename from the closest
instance's style name, and last the coordinate-driven italic/slant
style-flag override. -/
def to_static (f : FontState) (coordinates : Option Coords)
    (style_name : Option String) (update_names update_style_flags : Bool) :
    Except FontbroError Unit × FontState :=
  match to_static_resolve f coordinates style_name with
  | Except.error e => (Except.error e, f)
  | Except.ok coords =>
    let inst := get_variable_instance_closest_to_coordinates f coords
    let f1 := instantiate_pin f
    let afterRename :=
      match inst, update_names with
      | some i, true => rename f1 none i.styleName update_style_flags
      | _, _ => (Except.ok (), f1)
    match afterRename with
    | (Except.error e, f2) => (Except.error e, f2)
    | (Except.ok _, f2) =>
      let has_italic := instancer_coord_value coords "ital" = 1
      let has_slant := instancer_coord_value coords "slnt" < 0
      let f3 :=
        if update_style_flags ∧ (has_italic ∨ has_slant) then
          set_style_flags f2 (some false) none (some true)
        else f2
      (Except.ok (), f3)

/-- The numeric value at which the codec pins an axis of the final
coordinates dict handed to it by `to_static`: an explicit number pins
there, and the `None` placeholder pins at the axis default (fontTools
drops an axis whose limit is `None` at its default location). -/
def resolved_pin_value (f : FontState) (coordinates : Coords) (tag : String) :
    Option ℚ :=
  match dictGet coordinates tag with
  | some (AxisValue.num q) => some q
  | some AxisValue.vnone => (get_variable_axis_by_tag f tag).map Axis.defaultValue
  | _ => none

/-! ### Concrete fonts used by witnesses and counterexamples -/

/-- A two-axis demo variable font with two named instances. -/
def demoFont : FontState where
  hasFvar := true
  axes := [⟨"wght", 100, 400, 900⟩, ⟨"wdth", 75, 100, 125⟩]
  instances := [⟨[("wght", 400), ("wdth", 100)], some "Regular"⟩,
                ⟨[("wght", 700), ("wdth", 100)], some "Bold"⟩]
  names := [(1, "Test"), (2, "Regular"), (3, "uid;Test-Regular"),
            (6, "Test-Regular")]
  flags := ⟨true, false, false⟩

/-- A variable font that declares no named instances. -/
def noInstFont : FontState where
  hasFvar := true
  axes := [⟨"wght", 100, 400, 900⟩]
  instances := []
  names := [(1, "Test"), (2, "Regular")]
  flags := ⟨true, false, false⟩

/-- A variable font whose `ital` axis defaults to `1` (an italic-only
design), with no named instances. -/
def italFont : FontState where
  hasFvar := true
  axes := [⟨"ital", 0, 1, 1⟩]
  instances := []
  names := [(1, "Test"), (2, "Regular")]
  flags := ⟨true, false, false⟩

/-- A variable font with two named instances at the same point, so that
every lookup ties. -/
def tieFont : FontState where
  hasFvar := true
  axes := [⟨"wght", 0, 0, 1000⟩]
  instances := [⟨[("wght", 0)], some "A"⟩, ⟨[("wght", 0)], some "B"⟩]
  names := [(1, "Test"), (2, "Regular")]
  flags := ⟨true, false, false⟩

/-- A variable font whose second and third instances tie at the minimal
distance from weight 400, with a strictly farther first instance. -/
def firstMinFont : FontState where
  hasFvar := true
  axes := [⟨"wght", 100, 400, 900⟩]
  instances := [⟨[("wght", 700)], some "X"⟩, ⟨[("wght", 500)], some "Y"⟩,
                ⟨[("wght", 300)], some "Z"⟩]
  names := [(1, "Test"), (2, "Regular")]
  flags := ⟨true, false, false⟩

/-! ### Association-list lemmas for the dict model -/

theorem dictGet_nil {κ α : Type} [BEq κ] (k : κ) :
    dictGet ([] : List (κ × α)) k = none := rfl

theorem dictGet_cons {κ α : Type} [BEq κ] [LawfulBEq κ] [DecidableEq κ] (p : κ × α)
    (l : List (κ × α)) (k : κ) :
    dictGet (p :: l) k = if p.1 = k then some p.2 else dictGet l k := by
  by_cases h : p.1 = k <;> simp [dictGet, List.find?_cons, h]

theorem dictGet_append {κ α : Type} [BEq κ] [LawfulBEq κ] [DecidableEq κ]
    (l₁ l₂ : List (κ × α)) (k : κ) :
    dictGet (l₁ ++ l₂) k = ((dictGet l₁ k).orElse (fun _ => dictGet l₂ k)) := by
  induction l₁ with
  | nil => simp [dictGet]
  | cons p rest ih =>
    by_cases h : p.1 = k <;> simp [dictGet_cons, h, ih]

theorem find?_cons_pair {κ α : Type} [BEq κ] [LawfulBEq κ] [DecidableEq κ] (p : κ × α)
    (l : List (κ × α)) (k : κ) :
    (p :: l).find? (fun q => q.1 == k) =
      if p.1 = k then some p else l.find? (fun q => q.1 == k) := by
  by_cases h : p.1 = k
  · rw [List.find?_cons_of_pos] <;> simp [h]
  · rw [List.find?_cons_of_neg] <;> simp [h]

theorem dictGet_map_set {κ α : Type} [BEq κ] [LawfulBEq κ] [DecidableEq κ]
    (l : List (κ × α)) (k k' : κ) (v : α) :
    dictGet (l.map (fun p => if p.1 == k then (k, v) else p)) k' =
      if k' = k then
        (if (l.find? (fun p => p.1 == k)).isSome then some v else none)
      else dictGet l k' := by
  induction l with
  | nil => simp [dictGet]
  | cons p rest ih =>
    simp only [beq_iff_eq] at ih ⊢
    by_cases hp : p.1 = k
    · by_cases hk : k' = k
      · subst hk
        simp [List.map_cons, hp, dictGet_cons, find?_cons_pair]
      · have hk' : ¬ k = k' := fun h => hk h.symm
        simp [List.map_cons, hp, dictGet_cons, hk', ih, hk]
    · by_cases hk : k' = k
      · subst hk
        by_cases hpk : p.1 = k'
        · exact absurd hpk hp
        · simp [List.map_cons, hp, dictGet_cons, hpk, ih]
          rw [find?_cons_pair, if_neg hpk]
      · by_cases hpk : p.1 = k'
        · simp [List.map_cons, hp, dictGet_cons, hpk, ih, hk]
        · simp [List.map_cons, hp, dictGet_cons, hpk, ih, hk]

theorem dictGet_dictSet {κ α : Type} [BEq κ] [LawfulBEq κ] [DecidableEq κ]
    (l : List (κ × α)) (k k' : κ) (v : α) :
    dictGet (dictSet l k v) k' = if k' = k then some v else dictGet l k' := by
  unfold dictSet
  by_cases hmem : (l.find? (fun p => p.1 == k)).isSome
  · rw [if_pos hmem, dictGet_map_set]
    by_cases hk : k' = k <;> simp [hk, hmem]
  · rw [if_neg hmem, dictGet_append]
    have hfind : l.find? (fun p => p.1 == k) = none :=
      Option.not_isSome_iff_eq_none.mp hmem
    have hget : dictGet l k = none := by
      unfold dictGet
      rw [hfind]
      rfl
    by_cases hk : k' = k
    · subst hk
      simp [hget, dictGet_cons]
    · have hk2 : ¬ k = k' := fun h => hk h.symm
      cases hg : dictGet l k' <;>
        simp [hg, dictGet_cons, hk, hk2, dictGet, Option.orElse]

theorem fill_lookup_step_get_congr (a : Axis) (c₁ c₂ : Coords)
    (h : ∀ k, dictGet c₁ k = dictGet c₂ k) (k : String) :
    dictGet (fill_lookup_step c₁ a) k = dictGet (fill_lookup_step c₂ a) k := by
  unfold fill_lookup_step
  have ht : dictGet c₂ a.tag = dictGet c₁ a.tag := (h a.tag).symm
  rw [ht]
  cases hg : dictGet c₁ a.tag with
  | none => simp [dictGet_dictSet, h k]
  | some v => cases v <;> simp [dictGet_dictSet, h k]

theorem fill_lookup_defaults_get_congr (axes : List Axis) :
    ∀ (c₁ c₂ : Coords), (∀ k, dictGet c₁ k = dictGet c₂ k) →
    ∀ k, dictGet (fill_lookup_defaults axes c₁) k =
      dictGet (fill_lookup_defaults axes c₂) k := by
  induction axes with
  | nil => intro c₁ c₂ h k; exact h k
  | cons a rest ih =>
    intro c₁ c₂ h k
    simp only [fill_lookup_defaults, List.foldl_cons]
    exact ih _ _ (fill_lookup_step_get_congr a c₁ c₂ h) k

theorem sq_euclidean_distance_get_congr (iv : List (String × ℚ))
    (c₁ c₂ : Coords) (h : ∀ k, dictGet c₁ k = dictGet c₂ k) :
    sq_euclidean_distance iv c₁ = sq_euclidean_distance iv c₂ := by
  unfold sq_euclidean_distance
  congr 1
  apply List.map_congr_left
  intro p _
  rw [h p.1]

theorem closest_loop_get_congr (c₁ c₂ : Coords)
    (h : ∀ k, dictGet c₁ k = dictGet c₂ k) :
    ∀ (l : List VarInstance) (b : ℚ) (acc : Option VarInstance),
    closest_loop c₁ l b acc = closest_loop c₂ l b acc := by
  intro l
  induction l with
  | nil => intro b acc; rfl
  | cons inst rest ih =>
    intro b acc
    simp only [closest_loop]
    rw [sq_euclidean_distance_get_congr inst.coordinates c₁ c₂ h]
    by_cases hd : sq_euclidean_distance inst.coordinates c₂ < b <;>
      simp [hd, ih]

theorem dictGet_eq_some_iff_mem {κ α : Type} [BEq κ] [LawfulBEq κ] [DecidableEq κ]
    (l : List (κ × α)) (h : (l.map Prod.fst).Nodup) (k : κ) (v : α) :
    dictGet l k = some v ↔ (k, v) ∈ l := by
  induction l with
  | nil => simp [dictGet]
  | cons p rest ih =>
    rw [List.map_cons, List.nodup_cons] at h
    obtain ⟨hnh, hnd⟩ := h
    by_cases hp : p.1 = k
    · rw [dictGet_cons, if_pos hp]
      constructor
      · intro h'
        have hv : p.2 = v := by injection h'
        have : p = (k, v) := by
          cases p
          simp at hp hv
          simp [hp, hv]
        simp [this]
      · intro h'
        rcases List.mem_cons.mp h' with h' | h'
        · cases p
          simp at hp
          subst hp
          injection h'.symm with h1 h2
          simp [h2]
        · exfalso
          apply hnh
          have : k ∈ rest.map Prod.fst := by
            exact List.mem_map.mpr ⟨(k, v), h', rfl⟩
          simpa [hp] using this
    · rw [dictGet_cons, if_neg hp, ih hnd]
      constructor
      · intro h'; exact List.mem_cons_of_mem _ h'
      · intro h'
        rcases List.mem_cons.mp h' with h' | h'
        · exfalso; apply hp; rw [← h']
        · exact h'

theorem dictGet_perm {κ α : Type} [BEq κ] [LawfulBEq κ] [DecidableEq κ]
    (l₁ l₂ : List (κ × α)) (hp : l₁.Perm l₂)
    (h : (l₁.map Prod.fst).Nodup) (k : κ) :
    dictGet l₁ k = dictGet l₂ k := by
  have h₂ : (l₂.map Prod.fst).Nodup := ((hp.map Prod.fst).nodup_iff).mp h
  cases hg : dictGet l₁ k with
  | some v =>
    have hm := (dictGet_eq_some_iff_mem l₁ h k v).mp hg
    exact ((dictGet_eq_some_iff_mem l₂ h₂ k v).mpr (hp.mem_iff.mp hm)).symm
  | none =>
    cases hg₂ : dictGet l₂ k with
    | none => rfl
    | some v =>
      have hm := (dictGet_eq_some_iff_mem l₂ h₂ k v).mp hg₂
      have h1 := (dictGet_eq_some_iff_mem l₁ h k v).mpr (hp.mem_iff.mpr hm)
      rw [hg] at h1
      cases h1

theorem closest_loop_skip (lookup : Coords) :
    ∀ (l : List VarInstance) (b : ℚ) (acc : Option VarInstance),
    (∀ inst ∈ l, b ≤ sq_euclidean_distance inst.coordinates lookup) →
    closest_loop lookup l b acc = acc := by
  intro l
  induction l with
  | nil => intro b acc _; rfl
  | cons inst rest ih =>
    intro b acc h
    simp only [closest_loop]
    rw [if_neg (not_lt.mpr (h inst (List.mem_cons_self _ _)))]
    exact ih b acc (fun i hi => h i (List.mem_cons_of_mem _ hi))

theorem closest_loop_firstmin (lookup : Coords) :
    ∀ (l : List VarInstance) (i : ℕ) (hi : i < l.length) (b : ℚ)
      (acc : Option VarInstance),
    sq_euclidean_distance l[i].coordinates lookup < b →
    (∀ j (hj : j < l.length),
      sq_euclidean_distance l[i].coordinates lookup ≤
        sq_euclidean_distance l[j].coordinates lookup) →
    (∀ j (hj : j < l.length), j < i →
      sq_euclidean_distance l[i].coordinates lookup <
        sq_euclidean_distance l[j].coordinates lookup) →
    closest_loop lookup l b acc = some l[i] := by
  intro l
  induction l with
  | nil => intro i hi; exact absurd hi (by simp)
  | cons inst rest ih =>
    intro i hi b acc hb hmin hfirst
    cases i with
    | zero =>
      simp only [List.getElem_cons_zero] at hb hmin ⊢
      simp only [closest_loop]
      rw [if_pos hb]
      apply closest_loop_skip
      intro x hx
      obtain ⟨n, hn, hxn⟩ := List.getElem_of_mem hx
      have h1 := hmin (n + 1) (by simpa using Nat.succ_lt_succ hn)
      simpa [hxn] using h1
    | succ k =>
      have hk : k < rest.length := by simpa using Nat.lt_of_succ_lt_succ hi
      simp only [List.getElem_cons_succ] at hb hmin hfirst ⊢
      have hmin2 : ∀ j (hj : j < rest.length),
          sq_euclidean_distance rest[k].coordinates lookup ≤
            sq_euclidean_distance rest[j].coordinates lookup := by
        intro j hj
        have h1 := hmin (j + 1) (by simpa using Nat.succ_lt_succ hj)
        simpa using h1
      have hfirst2 : ∀ j (hj : j < rest.length), j < k →
          sq_euclidean_distance rest[k].coordinates lookup <
            sq_euclidean_distance rest[j].coordinates lookup := by
        intro j hj hjk
        have h1 := hfirst (j + 1) (by simpa using Nat.succ_lt_succ hj)
          (Nat.succ_lt_succ hjk)
        simpa using h1
      have hd0 : sq_euclidean_distance rest[k].coordinates lookup <
          sq_euclidean_distance inst.coordinates lookup := by
        have h1 := hfirst 0 (by simp) (Nat.succ_pos k)
        simpa using h1
      simp only [closest_loop]
      by_cases hcmp : sq_euclidean_distance inst.coordinates lookup < b
      · rw [if_pos hcmp]
        exact ih k hk _ _ hd0 hmin2 hfirst2
      · rw [if_neg hcmp]
        exact ih k hk b acc hb hmin2 hfirst2

theorem static_fill_fold_get (tags : List String) :
    ∀ (c : Coords) (k : String),
    dictGet (tags.foldl
      (fun c tag =>
        if (dictGet c tag).isSome then c else c ++ [(tag, AxisValue.vnone)]) c) k =
      match dictGet c k with
      | some v => some v
      | none => if tags.contains k then some AxisValue.vnone else none := by
  induction tags with
  | nil => intro c k; cases hg : dictGet c k <;> simp [hg]
  | cons t rest ih =>
    intro c k
    simp only [List.foldl_cons]
    rw [ih]
    by_cases hts : (dictGet c t).isSome
    · rw [if_pos hts]
      cases hg : dictGet c k with
      | some v => simp
      | none =>
        by_cases hkt : k = t
        · subst hkt
          rw [hg] at hts
          simp at hts
        · simp [List.contains_cons, hkt, fun h => hkt (by simpa using h)]
    · rw [if_neg hts]
      cases hg : dictGet c k with
      | some v => simp [dictGet_append, hg]
      | none =>
        rw [dictGet_append, hg]
        by_cases hkt : k = t
        · subst hkt
          simp [dictGet_cons, List.contains_cons, Option.orElse]
        · have h2 : ¬ t = k := fun h => hkt h.symm
          simp [dictGet_cons, h2, Option.orElse, List.contains_cons, dictGet_nil,
            fun h => hkt (by simpa using h)]

theorem static_fill_defaults_get (f : FontState) (c : Coords) (k : String) :
    dictGet (static_fill_defaults f c) k =
      match dictGet c k with
      | some v => some v
      | none =>
        if ((get_variable_axes_tags f).getD []).contains k then
          some AxisValue.vnone
        else none := by
  unfold static_fill_defaults
  exact static_fill_fold_get _ c k

theorem slice_convert_value_pinned_id (f : FontState) (tag : String)
    (v : AxisValue)
    (h : (match slice_convert_value f tag v with
          | AxisValue.vnone => true
          | AxisValue.num _ => true
          | _ => false) = true) :
    slice_convert_value f tag v = v := by
  cases v <;> simp [slice_convert_value] at h ⊢

theorem slice_convert_coordinates_pinned_id (f : FontState) :
    ∀ (c : Coords),
    all_axes_pinned (slice_convert_coordinates f c) = true →
    slice_convert_coordinates f c = c := by
  intro c
  induction c with
  | nil => intro _; rfl
  | cons p rest ih =>
    intro h
    simp only [slice_convert_coordinates, List.map_cons, all_axes_pinned,
      List.all_cons, Bool.and_eq_true] at h ⊢
    obtain ⟨h1, h2⟩ := h
    rw [slice_convert_value_pinned_id f p.1 p.2 h1]
    have ih2 : List.map (fun p => (p.1, slice_convert_value f p.1 p.2)) rest =
        rest := ih h2
    rw [ih2]

theorem set_style_flags_names (f : FontState) (r b i : Option Bool) :
    (set_style_flags f r b i).names = f.names := by
  cases r <;> cases b <;> cases i <;> rfl

theorem set_style_flags_by_subfamily_name_names (f : FontState) :
    (set_style_flags_by_subfamily_name f).names = f.names := by
  unfold set_style_flags_by_subfamily_name
  simp only []
  split_ifs <;> simp [set_style_flags_names]

theorem set_style_flags_flags (f : FontState) (r b i : Option Bool) :
    (set_style_flags f r b i).flags = {
      regular := r.getD f.flags.regular,
      bold := b.getD f.flags.bold,
      italic := i.getD f.flags.italic } := by
  cases r <;> cases b <;> cases i <;> rfl
theorem slice_convert_coordinates_of_pinned (f : FontState) :
    ∀ c : Coords, all_axes_pinned c = true → slice_convert_coordinates f c = c := by
  intro c
  induction c with
  | nil => intro _; rfl
  | cons p rest ih =>
    intro h
    simp only [all_axes_pinned, List.all_cons, Bool.and_eq_true] at h
    obtain ⟨h1, h2⟩ := h
    simp only [slice_convert_coordinates, List.map_cons]
    have hv : slice_convert_value f p.1 p.2 = p.2 := by
      cases hp : p.2 <;> simp [hp] at h1 <;> simp [slice_convert_value]
    have ih2 : List.map (fun p => (p.1, slice_convert_value f p.1 p.2)) rest =
        rest := ih h2
    rw [hv, ih2]

theorem find_axis_self (axes : List Axis) (a : Axis)
    (h : (axes.map Axis.tag).Nodup) (ha : a ∈ axes) :
    axes.find? (fun x => x.tag == a.tag) = some a := by
  induction axes with
  | nil => cases ha
  | cons b rest ih =>
    rw [List.map_cons, List.nodup_cons] at h
    obtain ⟨hbh, hnd⟩ := h
    rcases List.mem_cons.mp ha with h' | h'
    · subst h'
      rw [List.find?_cons_of_pos]
      simp
    · by_cases hb : b.tag = a.tag
      · exfalso
        apply hbh
        rw [hb]
        exact List.mem_map.mpr ⟨a, h', rfl⟩
      · rw [List.find?_cons_of_neg _ (by simp [hb])]
        exact ih hnd h'

/-- C10: `is_static` returns exactly the boolean negation of
`is_variable`; a font is never reported as both variable and static, nor
as neither. -/
theorem C10_is_static_is_negation_of_is_variable (f : FontState) :
    is_static f = !(is_variable f) ∧
    (is_static f = true ∨ is_variable f = true) ∧
    ¬(is_static f = true ∧ is_variable f = true) := by
  cases hf : f.hasFvar <;> simp [is_static, is_variable, hf]

/-- C7: on a variable font with zero named instances the closest-instance
resolver returns `None` for every coordinate point, without error. -/
theorem C7_closest_none_without_instances (f : FontState)
    (coordinates : Coords) (h1 : is_variable f = true)
    (h2 : f.instances = []) :
    get_variable_instance_closest_to_coordinates f coordinates = none := by
  unfold get_variable_instance_closest_to_coordinates
  have hf : f.hasFvar = true := h1
  simp [hf, get_variable_instances, is_variable, h2, closest_loop]

/-- C3: supplying both a truthy coordinates dict and a truthy style name
to `to_static` raises `ArgumentError` and returns with the font state
untouched. -/
theorem C3_coordinates_and_style_name_mutually_exclusive (f : FontState)
    (c : Coords) (sn : String) (un usf : Bool) (h1 : is_variable f = true)
    (h2 : c ≠ []) (h3 : sn ≠ "") :
    to_static f (some c) (some sn) un usf =
      (Except.error (FontbroError.argumentError
        "Invalid arguments: 'coordinates' and 'style_name' are mutually exclusive."),
       f) := by
  have hf : f.hasFvar = true := h1
  unfold to_static to_static_resolve
  simp [hf, is_variable, h2, h3]

/-- C2: slicing raises `ArgumentError` when no axis tags are supplied, and
when the supplied tags cover exactly the declared axis set with every
value a single pinned one. -/
theorem C2_slice_argument_errors (f : FontState) (coordinates : Coords)
    (h1 : is_variable f = true) :
    (coordinates = [] →
      (to_sliced_variable f coordinates).1 =
        Except.error (FontbroError.argumentError
          "Invalid coordinates: axes not defined.")) ∧
    (coordinates ≠ [] →
      tag_set_eq (coordinates.map Prod.fst) (f.axes.map Axis.tag) = true →
      all_axes_pinned coordinates = true →
      (to_sliced_variable f coordinates).1 =
        Except.error (FontbroError.argumentError
          "Invalid coordinates: all axes are pinned (use to_static method).")) := by
  have hf : f.hasFvar = true := h1
  constructor
  · intro h
    subst h
    simp [to_sliced_variable, hf, is_variable, slice_convert_coordinates]
  · intro hne hset hpin
    have hconv : slice_convert_coordinates f coordinates = coordinates :=
      slice_convert_coordinates_of_pinned f coordinates hpin
    unfold to_sliced_variable
    rw [hconv]
    have hlen : ¬ coordinates.length = 0 := by
      intro h
      exact hne (List.length_eq_zero.mp h)
    simp [hf, is_variable, hlen, get_variable_axes_tags, hset, hpin]

/-- C1: `to_static` extends the caller's coordinates with a placeholder
that pins every absent declared axis at one value — its default — and the
all-axes-pinned `ArgumentError` fires exactly when, after this defaulting,
some axis value is not a single pinned value. -/
theorem C1_pin_defaulting_and_error (f : FontState) (coordinates : Coords)
    (h1 : is_variable f = true) (h2 : (f.axes.map Axis.tag).Nodup) :
    (∀ a ∈ f.axes, dictGet coordinates a.tag = none →
      dictGet (static_fill_defaults f coordinates) a.tag =
        some AxisValue.vnone ∧
      resolved_pin_value f (static_fill_defaults f coordinates) a.tag =
        some a.defaultValue) ∧
    (to_static_resolve f (some coordinates) none =
        Except.error (FontbroError.argumentError
          "Invalid coordinates: all axes must be pinned.") ↔
      ∃ p ∈ static_fill_defaults f coordinates,
        ¬ ((match p.2 with
            | AxisValue.vnone => true
            | AxisValue.num _ => true
            | _ => false) = true)) ∧
    (to_static_resolve f (some coordinates) none =
        Except.ok (static_fill_defaults f coordinates) ↔
      ∀ p ∈ static_fill_defaults f coordinates,
        (match p.2 with
         | AxisValue.vnone => true
         | AxisValue.num _ => true
         | _ => false) = true) := by
  have hf : f.hasFvar = true := h1
  have htags : (get_variable_axes_tags f).getD [] = f.axes.map Axis.tag := by
    simp [get_variable_axes_tags, is_variable, hf]
  have hres : to_static_resolve f (some coordinates) none =
      (if all_axes_pinned (static_fill_defaults f coordinates) = true
       then Except.ok (static_fill_defaults f coordinates)
       else Except.error (FontbroError.argumentError
         "Invalid coordinates: all axes must be pinned.")) := by
    unfold to_static_resolve
    by_cases hall :
        all_axes_pinned (static_fill_defaults f coordinates) = true <;>
      simp [hf, is_variable, hall]
  refine ⟨?defaulted, ?erroriff, ?okiff⟩
  case defaulted =>
    intro a ha hget
    have hfill : dictGet (static_fill_defaults f coordinates) a.tag =
        some AxisValue.vnone := by
      rw [static_fill_defaults_get, hget, htags]
      have hc : (f.axes.map Axis.tag).contains a.tag = true := by
        simp only [List.elem_eq_mem, decide_eq_true_eq, List.mem_map]
        exact ⟨a, ha, rfl⟩
      simp [hc]
      exact ⟨a, ha, rfl⟩
    refine ⟨hfill, ?_⟩
    unfold resolved_pin_value
    rw [hfill]
    unfold get_variable_axis_by_tag
    rw [show (get_variable_axes f).getD [] = f.axes by
      simp [get_variable_axes, is_variable, hf]]
    rw [find_axis_self f.axes a h2 ha]
    rfl
  case erroriff =>
    rw [hres]
    by_cases hall :
        all_axes_pinned (static_fill_defaults f coordinates) = true
    · rw [if_pos hall]
      constructor
      · intro h
        exact absurd h (by simp)
      · rintro ⟨p, hp, hne⟩
        exact absurd (List.all_eq_true.mp hall p hp) hne
    · rw [if_neg hall]
      constructor
      · intro _
        have := List.all_eq_false.mp (Bool.not_eq_true _ |>.mp hall)
        exact this
      · intro _
        rfl
  case okiff =>
    rw [hres]
    by_cases hall :
        all_axes_pinned (static_fill_defaults f coordinates) = true
    · rw [if_pos hall]
      constructor
      · intro _
        exact List.all_eq_true.mp hall
      · intro _
        rfl
    · rw [if_neg hall]
      constructor
      · intro h
        exact absurd h (by simp)
      · intro hforall
        exact absurd (List.all_eq_true.mpr hforall) hall

theorem C1_pin_defaulting_and_error_witness :
    is_variable demoFont = true ∧
    (demoFont.axes.map Axis.tag).Nodup ∧
    ((∀ a ∈ demoFont.axes,
        dictGet [("wght", AxisValue.num 700)] a.tag = none →
        dictGet (static_fill_defaults demoFont
          [("wght", AxisValue.num 700)]) a.tag = some AxisValue.vnone ∧
        resolved_pin_value demoFont
            (static_fill_defaults demoFont [("wght", AxisValue.num 700)])
            a.tag = some a.defaultValue) ∧
      (to_static_resolve demoFont (some [("wght", AxisValue.num 700)]) none =
          Except.error (FontbroError.argumentError
            "Invalid coordinates: all axes must be pinned.") ↔
        ∃ p ∈ static_fill_defaults demoFont [("wght", AxisValue.num 700)],
          ¬ ((match p.2 with
              | AxisValue.vnone => true
              | AxisValue.num _ => true
              | _ => false) = true)) ∧
      (to_static_resolve demoFont (some [("wght", AxisValue.num 700)]) none =
          Except.ok (static_fill_defaults demoFont
            [("wght", AxisValue.num 700)]) ↔
        ∀ p ∈ static_fill_defaults demoFont [("wght", AxisValue.num 700)],
          (match p.2 with
           | AxisValue.vnone => true
           | AxisValue.num _ => true
           | _ => false) = true)) :=
  ⟨rfl, by decide,
    C1_pin_defaulting_and_error demoFont [("wght", AxisValue.num 700)] rfl
      (by decide)⟩

theorem C2_slice_argument_errors_witness :
    is_variable demoFont = true ∧
    ((([] : Coords) = [] →
      (to_sliced_variable demoFont ([] : Coords)).1 =
        Except.error (FontbroError.argumentError
          "Invalid coordinates: axes not defined.")) ∧
     (([] : Coords) ≠ [] →
      tag_set_eq (([] : Coords).map Prod.fst)
        (demoFont.axes.map Axis.tag) = true →
      all_axes_pinned ([] : Coords) = true →
      (to_sliced_variable demoFont ([] : Coords)).1 =
        Except.error (FontbroError.argumentError
          "Invalid coordinates: all axes are pinned (use to_static method)."))) ∧
    (([("wght", AxisValue.num 700), ("wdth", AxisValue.num 100)] = ([] : Coords) →
      (to_sliced_variable demoFont
        [("wght", AxisValue.num 700), ("wdth", AxisValue.num 100)]).1 =
        Except.error (FontbroError.argumentError
          "Invalid coordinates: axes not defined.")) ∧
     ([("wght", AxisValue.num 700), ("wdth", AxisValue.num 100)] ≠ ([] : Coords) →
      tag_set_eq
        ([("wght", AxisValue.num 700), ("wdth", AxisValue.num 100)].map Prod.fst)
        (demoFont.axes.map Axis.tag) = true →
      all_axes_pinned
        [("wght", AxisValue.num 700), ("wdth", AxisValue.num 100)] = true →
      (to_sliced_variable demoFont
        [("wght", AxisValue.num 700), ("wdth", AxisValue.num 100)]).1 =
        Except.error (FontbroError.argumentError
          "Invalid coordinates: all axes are pinned (use to_static method)."))) :=
  ⟨rfl, C2_slice_argument_errors demoFont [] rfl,
    C2_slice_argument_errors demoFont
      [("wght", AxisValue.num 700), ("wdth", AxisValue.num 100)] rfl⟩

theorem C3_coordinates_and_style_name_mutually_exclusive_witness :
    is_variable demoFont = true ∧
    [("wght", AxisValue.num 700)] ≠ ([] : Coords) ∧
    "Bold" ≠ "" ∧
    to_static demoFont (some [("wght", AxisValue.num 700)]) (some "Bold")
        true true =
      (Except.error (FontbroError.argumentError
        "Invalid arguments: 'coordinates' and 'style_name' are mutually exclusive."),
       demoFont) :=
  ⟨rfl, by decide, by decide,
    C3_coordinates_and_style_name_mutually_exclusive demoFont
      [("wght", AxisValue.num 700)] "Bold" true true rfl (by decide)
      (by decide)⟩

theorem C7_closest_none_without_instances_witness :
    is_variable noInstFont = true ∧
    noInstFont.instances = [] ∧
    get_variable_instance_closest_to_coordinates noInstFont
      [("wght", AxisValue.num 550)] = none :=
  ⟨rfl, rfl,
    C7_closest_none_without_instances noInstFont
      [("wght", AxisValue.num 550)] rfl rfl⟩

/-- C4: counterexample.  `italFont` declares an `ital` axis whose default
is `1`; pinning with no coordinates resolves `ital` to `1` by defaulting,
yet the successful call leaves the style flags untouched, because the
final dict holds the `None` placeholder and the override check reads it
back as `0`. -/
theorem C4_style_override_counterexample :
    to_static_resolve italFont none none =
      Except.ok [("ital", AxisValue.vnone)] ∧
    resolved_pin_value italFont [("ital", AxisValue.vnone)] "ital" =
      some 1 ∧
    (to_static italFont none none true true).1 = Except.ok () ∧
    (to_static italFont none none true true).2.flags.italic = false ∧
    (to_static italFont none none true true).2.flags.regular = true := by
  refine ⟨rfl, rfl, rfl, rfl, rfl⟩

/-- C4 (amended): after a successful pin with style-flag updating, if the
final coordinates dict gives an `ital` axis the explicit value `1`, or a
`slnt` axis an explicit negative value, the style flags are forced to
regular = false and italic = true, and this override is applied after any
rename-derived style flags.  Axes filled by defaulting hold the `None`
placeholder, which reads back as `0` and never triggers the override. -/
theorem C4_style_override_amended (f : FontState) (c : Option Coords)
    (sn : Option String) (un : Bool) (coords : Coords) (g : FontState)
    (hres : to_static_resolve f c sn = Except.ok coords)
    (hcond : instancer_coord_value coords "ital" = 1 ∨
      instancer_coord_value coords "slnt" < 0)
    (hok : to_static f c sn un true = (Except.ok (), g)) :
    g.flags.regular = false ∧ g.flags.italic = true := by
  unfold to_static at hok
  rw [hres] at hok
  dsimp only at hok
  rcases hA : (match get_variable_instance_closest_to_coordinates f coords,
      un with
    | some i, true => rename (instantiate_pin f) none i.styleName true
    | _, _ => (Except.ok (), instantiate_pin f)) with ⟨r, f2⟩
  rw [hA] at hok
  cases r with
  | error e => simp at hok
  | ok u =>
    dsimp only at hok
    rw [if_pos ⟨rfl, hcond⟩] at hok
    have hg : g = set_style_flags f2 (some false) none (some true) := by
      injection hok with h1 h2
      exact h2.symm
    rw [hg, set_style_flags_flags]
    exact ⟨rfl, rfl⟩

theorem C4_style_override_amended_witness :
    to_static_resolve italFont (some [("ital", AxisValue.num 1)]) none =
      Except.ok [("ital", AxisValue.num 1)] ∧
    (instancer_coord_value [("ital", AxisValue.num 1)] "ital" = 1 ∨
      instancer_coord_value [("ital", AxisValue.num 1)] "slnt" < 0) ∧
    to_static italFont (some [("ital", AxisValue.num 1)]) none true true =
      (Except.ok (),
       (to_static italFont (some [("ital", AxisValue.num 1)]) none true
         true).2) ∧
    ((to_static italFont (some [("ital", AxisValue.num 1)]) none true
        true).2.flags.regular = false ∧
     (to_static italFont (some [("ital", AxisValue.num 1)]) none true
        true).2.flags.italic = true) :=
  ⟨rfl, Or.inl rfl, rfl,
    C4_style_override_amended italFont (some [("ital", AxisValue.num 1)])
      none true [("ital", AxisValue.num 1)] _ rfl (Or.inl rfl) rfl⟩

/-- C5: counterexample.  `tieFont` declares two instances at the same
point, so both are at the same minimal distance from any lookup; at
weight `2 ^ 63` that distance equals the loop's initial
`float(sys.maxsize)` threshold, the strict comparison never fires, and
the resolver returns `none` instead of the first tied instance. -/
theorem C5_tie_break_counterexample :
    tieFont.instances =
      [⟨[("wght", 0)], some "A"⟩, ⟨[("wght", 0)], some "B"⟩] ∧
    sq_euclidean_distance [("wght", 0)]
      (fill_lookup_defaults tieFont.axes
        [("wght", AxisValue.num (2 ^ 63))]) = MAXSIZE_SQ ∧
    get_variable_instance_closest_to_coordinates tieFont
      [("wght", AxisValue.num (2 ^ 63))] = none := by
  have hfill : fill_lookup_defaults tieFont.axes
      [("wght", AxisValue.num (2 ^ 63))] =
      [("wght", AxisValue.num (2 ^ 63))] := rfl
  have hdist : sq_euclidean_distance [("wght", 0)]
      [("wght", AxisValue.num ((2 : ℚ) ^ 63))] = MAXSIZE_SQ := by
    unfold sq_euclidean_distance MAXSIZE_SQ
    rw [List.map_cons, List.map_nil, List.sum_cons, List.sum_nil]
    have hg : dictGet [("wght", AxisValue.num ((2 : ℚ) ^ 63))]
        (("wght", (0 : ℚ)) : String × ℚ).1 =
        some (AxisValue.num ((2 : ℚ) ^ 63)) := rfl
    rw [hg]
    ring
  refine ⟨rfl, by rw [hfill]; exact hdist, ?_⟩
  have hstep : get_variable_instance_closest_to_coordinates tieFont
      [("wght", AxisValue.num (2 ^ 63))] =
      closest_loop (fill_lookup_defaults tieFont.axes
        [("wght", AxisValue.num (2 ^ 63))]) tieFont.instances
        MAXSIZE_SQ none := rfl
  rw [hstep, hfill]
  apply closest_loop_skip
  intro inst hinst
  rcases List.mem_cons.mp hinst with h | h
  · subst h
    rw [hdist]
  · rcases List.mem_cons.mp h with h2 | h2
    · subst h2
      rw [hdist]
    · cases h2

/-- C5 (amended): whenever the minimal distance is strictly below the
loop's initial `float(sys.maxsize)` threshold, the resolver returns the
first instance (in declaration order) attaining it — in particular the
first of any group of tied minimal instances — deterministically, with no
secondary sort key; when every instance's distance reaches the threshold,
`none` is returned instead (see the counterexample). -/
theorem C5_tie_break_amended (f : FontState) (coords : Coords) (i : ℕ)
    (hi : i < f.instances.length) (h1 : is_variable f = true)
    (hmin : ∀ j (hj : j < f.instances.length),
      sq_euclidean_distance f.instances[i].coordinates
          (fill_lookup_defaults f.axes coords) ≤
        sq_euclidean_distance f.instances[j].coordinates
          (fill_lookup_defaults f.axes coords))
    (hfirst : ∀ j (hj : j < f.instances.length), j < i →
      sq_euclidean_distance f.instances[i].coordinates
          (fill_lookup_defaults f.axes coords) <
        sq_euclidean_distance f.instances[j].coordinates
          (fill_lookup_defaults f.axes coords))
    (hth : sq_euclidean_distance f.instances[i].coordinates
        (fill_lookup_defaults f.axes coords) < MAXSIZE_SQ) :
    get_variable_instance_closest_to_coordinates f coords =
      some f.instances[i] := by
  have hf : f.hasFvar = true := h1
  have hstep : get_variable_instance_closest_to_coordinates f coords =
      closest_loop (fill_lookup_defaults f.axes coords) f.instances
        MAXSIZE_SQ none := by
    unfold get_variable_instance_closest_to_coordinates
    simp [is_variable, hf, get_variable_axes, get_variable_instances]
  rw [hstep]
  exact closest_loop_firstmin _ _ i hi MAXSIZE_SQ none hth hmin hfirst

theorem C5_tie_break_amended_witness :
    is_variable firstMinFont = true ∧
    (∀ j (hj : j < firstMinFont.instances.length),
      sq_euclidean_distance [("wght", (500 : ℚ))]
          (fill_lookup_defaults firstMinFont.axes
            [("wght", AxisValue.num 400)]) ≤
        sq_euclidean_distance firstMinFont.instances[j].coordinates
          (fill_lookup_defaults firstMinFont.axes
            [("wght", AxisValue.num 400)])) ∧
    (∀ j (hj : j < firstMinFont.instances.length), j < 1 →
      sq_euclidean_distance [("wght", (500 : ℚ))]
          (fill_lookup_defaults firstMinFont.axes
            [("wght", AxisValue.num 400)]) <
        sq_euclidean_distance firstMinFont.instances[j].coordinates
          (fill_lookup_defaults firstMinFont.axes
            [("wght", AxisValue.num 400)])) ∧
    sq_euclidean_distance [("wght", (500 : ℚ))]
        (fill_lookup_defaults firstMinFont.axes
          [("wght", AxisValue.num 400)]) < MAXSIZE_SQ ∧
    get_variable_instance_closest_to_coordinates firstMinFont
      [("wght", AxisValue.num 400)] =
      some ⟨[("wght", 500)], some "Y"⟩ := by
  have hfill : fill_lookup_defaults firstMinFont.axes
      [("wght", AxisValue.num 400)] = [("wght", AxisValue.num 400)] := rfl
  have hmin : ∀ j (hj : j < firstMinFont.instances.length),
      sq_euclidean_distance [("wght", (500 : ℚ))]
          (fill_lookup_defaults firstMinFont.axes
            [("wght", AxisValue.num 400)]) ≤
        sq_euclidean_distance firstMinFont.instances[j].coordinates
          (fill_lookup_defaults firstMinFont.axes
            [("wght", AxisValue.num 400)]) := by
    intro j hj
    have hj3 : j < 3 := by simpa [firstMinFont] using hj
    rw [hfill]
    interval_cases j <;>
      simp [firstMinFont, sq_euclidean_distance, dictGet_cons] <;> norm_num
  have hfirst : ∀ j (hj : j < firstMinFont.instances.length), j < 1 →
      sq_euclidean_distance [("wght", (500 : ℚ))]
          (fill_lookup_defaults firstMinFont.axes
            [("wght", AxisValue.num 400)]) <
        sq_euclidean_distance firstMinFont.instances[j].coordinates
          (fill_lookup_defaults firstMinFont.axes
            [("wght", AxisValue.num 400)]) := by
    intro j hj hj1
    have hj0 : j = 0 := by omega
    subst hj0
    rw [hfill]
    simp [firstMinFont, sq_euclidean_distance, dictGet_cons]
    norm_num
  have hth : sq_euclidean_distance [("wght", (500 : ℚ))]
      (fill_lookup_defaults firstMinFont.axes
        [("wght", AxisValue.num 400)]) < MAXSIZE_SQ := by
    rw [hfill]
    simp [sq_euclidean_distance, dictGet_cons, MAXSIZE_SQ]
    norm_num
  exact ⟨rfl, hmin, hfirst, hth,
    C5_tie_break_amended firstMinFont [("wght", AxisValue.num 400)] 1
      (by simp [firstMinFont]) rfl hmin hfirst hth⟩

/-- C6: the closest-instance resolver is invariant under permutation of
the tag-value pairs of the input coordinates dict (whose keys, as dict
keys, are distinct): the lookup map, hence every distance, hence the
selected instance, depends only on key lookup. -/
theorem C6_closest_invariant_under_permutation (f : FontState)
    (c₁ c₂ : Coords) (hperm : c₁.Perm c₂)
    (hnd : (c₁.map Prod.fst).Nodup) :
    get_variable_instance_closest_to_coordinates f c₁ =
      get_variable_instance_closest_to_coordinates f c₂ := by
  unfold get_variable_instance_closest_to_coordinates
  by_cases hf : f.hasFvar = true
  · simp only [is_variable, hf, Bool.not_true, Bool.false_eq_true,
      if_false]
    apply closest_loop_get_congr
    apply fill_lookup_defaults_get_congr
    exact dictGet_perm c₁ c₂ hperm hnd
  · have hb : f.hasFvar = false := Bool.not_eq_true _ |>.mp hf
    simp [is_variable, hb]

theorem C6_closest_invariant_under_permutation_witness :
    ([("wght", AxisValue.num 500), ("wdth", AxisValue.num 100)] : Coords).Perm
      [("wdth", AxisValue.num 100), ("wght", AxisValue.num 500)] ∧
    (([("wght", AxisValue.num 500), ("wdth", AxisValue.num 100)] : Coords).map
      Prod.fst).Nodup ∧
    get_variable_instance_closest_to_coordinates demoFont
        [("wght", AxisValue.num 500), ("wdth", AxisValue.num 100)] =
      get_variable_instance_closest_to_coordinates demoFont
        [("wdth", AxisValue.num 100), ("wght", AxisValue.num 500)] :=
  ⟨List.Perm.swap _ _ _, by decide,
    C6_closest_invariant_under_permutation demoFont _ _
      (List.Perm.swap _ _ _) (by decide)⟩

/-- C8: `rename` raises `ArgumentError` exactly when the computed
PostScript name exceeds 63 characters, leaving the name table untouched;
otherwise it returns normally having written the family, subfamily, full,
PostScript and unique-identifier records (among the nine it sets) from the
one computed record set. -/
theorem C8_rename_postscript_limit (f : FontState)
    (fam sty : Option String) (usf : Bool) :
    (63 < (rename_compute f fam sty).postscript.length →
      rename f fam sty usf =
        (Except.error (FontbroError.argumentError
          (rename_error_msg (rename_compute f fam sty).postscript.length)),
         f)) ∧
    ((rename_compute f fam sty).postscript.length ≤ 63 →
      (rename f fam sty usf).1 = Except.ok () ∧
      get_name (rename f fam sty usf).2 NAME_FAMILY_NAME =
        some (rename_compute f fam sty).family ∧
      get_name (rename f fam sty usf).2 NAME_SUBFAMILY_NAME =
        some (rename_compute f fam sty).subfamily ∧
      get_name (rename f fam sty usf).2 NAME_FULL_NAME =
        some (rename_compute f fam sty).full ∧
      get_name (rename f fam sty usf).2 NAME_POSTSCRIPT_NAME =
        some (rename_compute f fam sty).postscript ∧
      get_name (rename f fam sty usf).2 NAME_UNIQUE_IDENTIFIER =
        some (rename_compute f fam sty).unique) := by
  constructor
  · intro h
    unfold rename
    rw [if_pos h]
  · intro h
    have hnot : ¬ 63 < (rename_compute f fam sty).postscript.length :=
      not_lt.mpr h
    unfold rename
    rw [if_neg hnot]
    refine ⟨rfl, ?_, ?_, ?_, ?_, ?_⟩ <;>
    · unfold get_name
      rw [show ∀ g : FontState,
          ((if usf then set_style_flags_by_subfamily_name g else g)).names =
            g.names from fun g => by
        cases usf
        · rfl
        · simpa using set_style_flags_by_subfamily_name_names g]
      simp [set_names, set_name, NAME_FAMILY_NAME, NAME_SUBFAMILY_NAME,
        NAME_UNIQUE_IDENTIFIER, NAME_FULL_NAME, NAME_POSTSCRIPT_NAME,
        NAME_TYPOGRAPHIC_FAMILY_NAME, NAME_TYPOGRAPHIC_SUBFAMILY_NAME,
        NAME_WWS_FAMILY_NAME, NAME_WWS_SUBFAMILY_NAME, dictGet_dictSet]

theorem C8_rename_postscript_limit_witness :
    (rename_compute demoFont (some "My Font")
      (some "Bold Italic")).postscript = "MyFont-BoldItalic" ∧
    (rename_compute demoFont (some "My Font")
      (some "Bold Italic")).postscript.length ≤ 63 ∧
    ((rename demoFont (some "My Font") (some "Bold Italic") true).1 =
      Except.ok () ∧
     get_name (rename demoFont (some "My Font") (some "Bold Italic")
        true).2 NAME_FAMILY_NAME =
      some (rename_compute demoFont (some "My Font")
        (some "Bold Italic")).family ∧
     get_name (rename demoFont (some "My Font") (some "Bold Italic")
        true).2 NAME_SUBFAMILY_NAME =
      some (rename_compute demoFont (some "My Font")
        (some "Bold Italic")).subfamily ∧
     get_name (rename demoFont (some "My Font") (some "Bold Italic")
        true).2 NAME_FULL_NAME =
      some (rename_compute demoFont (some "My Font")
        (some "Bold Italic")).full ∧
     get_name (rename demoFont (some "My Font") (some "Bold Italic")
        true).2 NAME_POSTSCRIPT_NAME =
      some (rename_compute demoFont (some "My Font")
        (some "Bold Italic")).postscript ∧
     get_name (rename demoFont (some "My Font") (some "Bold Italic")
        true).2 NAME_UNIQUE_IDENTIFIER =
      some (rename_compute demoFont (some "My Font")
        (some "Bold Italic")).unique) :=
  ⟨by decide, by decide,
    (C8_rename_postscript_limit demoFont (some "My Font")
      (some "Bold Italic") true).2 (by decide)⟩

theorem to_sliced_variable_error_coords (f : FontState) (c : Coords)
    (msg : String)
    (herr : (to_sliced_variable f c).1 =
      Except.error (FontbroError.argumentError msg)) :
    (to_sliced_variable f c).2.2 = c := by
  unfold to_sliced_variable at herr ⊢
  by_cases hf : f.hasFvar = true
  · simp only [is_variable, hf, Bool.not_true, Bool.false_eq_true,
      if_false] at herr ⊢
    by_cases hlen : (slice_convert_coordinates f c).length = 0
    · have hc : c = [] := by
        have hl : c.length = 0 := by
          simpa [slice_convert_coordinates] using hlen
        exact List.length_eq_zero.mp hl
      subst hc
      simp [slice_convert_coordinates]
    · rw [if_neg hlen] at herr ⊢
      by_cases hcond : (tag_set_eq
          ((slice_convert_coordinates f c).map Prod.fst)
          ((get_variable_axes_tags f).getD []) &&
          all_axes_pinned (slice_convert_coordinates f c)) = true
      · obtain ⟨hset, hpin⟩ : tag_set_eq
            ((slice_convert_coordinates f c).map Prod.fst)
            ((get_variable_axes_tags f).getD []) = true ∧
            all_axes_pinned (slice_convert_coordinates f c) = true := by
          simpa using hcond
        rw [if_pos hcond]
        exact slice_convert_coordinates_pinned_id f c hpin
      · rw [if_neg hcond] at herr
        simp at herr
  · have hb : f.hasFvar = false := Bool.not_eq_true _ |>.mp hf
    simp [is_variable, hb] at herr

/-- C9: counterexample.  No slicing call that raises `ArgumentError`
leaves the caller's coordinates dict observably changed: the
empty-coordinates error precedes any iteration of the rewrite loop, and
the all-pinned error requires every value to be a scalar, on which the
rewrite is the identity. -/
theorem C9_slice_error_mutation_counterexample :
    ¬ ∃ (f : FontState) (coordinates : Coords) (msg : String),
        (to_sliced_variable f coordinates).1 =
          Except.error (FontbroError.argumentError msg) ∧
        (to_sliced_variable f coordinates).2.2 ≠ coordinates := by
  rintro ⟨f, c, msg, herr, hne⟩
  exact hne (to_sliced_variable_error_coords f c msg herr)

/-- C9 (amended): on a variable font the caller's dict after the call is
always the converted dict (lists to tuples, dicts to `(min, default,
max)` triples — the rewrite sits before validation), but every call that
raises `ArgumentError` returns the dict equal to what was passed in: only
successful calls can observably mutate it. -/
theorem C9_rewrite_before_validation_amended (f : FontState) (c : Coords) :
    (is_variable f = true →
      (to_sliced_variable f c).2.2 = slice_convert_coordinates f c) ∧
    (∀ msg, (to_sliced_variable f c).1 =
        Except.error (FontbroError.argumentError msg) →
      (to_sliced_variable f c).2.2 = c) := by
  constructor
  · intro hf
    have hb : f.hasFvar = true := hf
    unfold to_sliced_variable
    simp only [is_variable, hb, Bool.not_true, Bool.false_eq_true, if_false]
    split_ifs <;> rfl
  · intro msg h
    exact to_sliced_variable_error_coords f c msg h

theorem C9_rewrite_before_validation_amended_witness :
    is_variable demoFont = true ∧
    (to_sliced_variable demoFont
        [("wght", AxisValue.num 700), ("wdth", AxisValue.num 100)]).2.2 =
      slice_convert_coordinates demoFont
        [("wght", AxisValue.num 700), ("wdth", AxisValue.num 100)] ∧
    (to_sliced_variable demoFont
        [("wght", AxisValue.num 700), ("wdth", AxisValue.num 100)]).1 =
      Except.error (FontbroError.argumentError
        "Invalid coordinates: all axes are pinned (use to_static method).") ∧
    (to_sliced_variable demoFont
        [("wght", AxisValue.num 700), ("wdth", AxisValue.num 100)]).2.2 =
      [("wght", AxisValue.num 700), ("wdth", AxisValue.num 100)] :=
  ⟨rfl,
    (C9_rewrite_before_validation_amended demoFont
      [("wght", AxisValue.num 700), ("wdth", AxisValue.num 100)]).1 rfl,
    rfl,
    (C9_rewrite_before_validation_amended demoFont
      [("wght", AxisValue.num 700), ("wdth", AxisValue.num 100)]).2
      "Invalid coordinates: all axes are pinned (use to_static method)." rfl⟩
end Fontbro
